import Mathlib

/-!
Verification of the subtitle discovery, language-matching and mux/extract
orchestration engine of the mkv-submerge repository.

The Python sources are shallowly embedded as executable Lean definitions:
  * `language_utils.py` : `LANGUAGE_MAPPING`, `is_language_match`,
    `has_language_in_set`;
  * `mkv_operations.py`  : `find_srt_file`, `compute_output_path`,
    `mux_with_subtitle`, `handle_file_operations`,
    `find_subtitle_track_in_mkv`, `extract_subtitle_from_mkv`;
  * `stats.py`           : `ProcessingStats`;
  * `cli.py`             : `process_single_mkv`, `process_single_mkv_export`,
    and the sequential / worker-pool batch loops of `run` and `export`.
Filesystem state is passed explicitly as a `World`; external capabilities
(mkvmerge probing, muxing and track extraction) are oracle parameters, and
every mutating filesystem call is recorded in an effect log.
-/

namespace MkvSubmerge

/-! ## language_utils.py -/

/-- The fixed alias table of `language_utils.py` (`LANGUAGE_MAPPING`),
a mapping from a primary code to its list of equivalent aliases. -/
def LANGUAGE_MAPPING : List (String × List String) :=
  [("ru", ["ru", "rus", "russian"]),
   ("en", ["en", "eng", "english"]),
   ("ja", ["ja", "jpn", "japanese"]),
   ("de", ["de", "ger", "deu", "german"]),
   ("fr", ["fr", "fre", "fra", "french"]),
   ("es", ["es", "spa", "spanish"]),
   ("it", ["it", "ita", "italian"]),
   ("pt", ["pt", "por", "portuguese"]),
   ("zh", ["zh", "chi", "zho", "chinese"]),
   ("ko", ["ko", "kor", "korean"]),
   ("ar", ["ar", "ara", "arabic"]),
   ("he", ["he", "heb", "hebrew"]),
   ("hi", ["hi", "hin", "hindi"]),
   ("th", ["th", "tha", "thai"]),
   ("tr", ["tr", "tur", "turkish"]),
   ("pl", ["pl", "pol", "polish"]),
   ("nl", ["nl", "dut", "nld", "dutch"]),
   ("sv", ["sv", "swe", "swedish"]),
   ("no", ["no", "nor", "norwegian"]),
   ("da", ["da", "dan", "danish"]),
   ("fi", ["fi", "fin", "finnish"]),
   ("cs", ["cs", "cze", "ces", "czech"]),
   ("sk", ["sk", "slo", "slk", "slovak"]),
   ("hu", ["hu", "hun", "hungarian"]),
   ("ro", ["ro", "rum", "ron", "romanian"]),
   ("bg", ["bg", "bul", "bulgarian"]),
   ("hr", ["hr", "hrv", "croatian"]),
   ("sr", ["sr", "srp", "serbian"]),
   ("uk", ["uk", "ukr", "ukrainian"])]

/-- ASCII lower-casing of one character, as Python's `str.lower` acts on the
language codes handled by the program. -/
def char_lower (c : Char) : Char :=
  if 65 ≤ c.toNat ∧ c.toNat ≤ 90 then Char.ofNat (c.toNat + 32) else c

/-- `str.lower()` on a language code: lower-case every character. -/
def str_lower (s : String) : String := ⟨s.data.map char_lower⟩

/-- `is_language_match(requested_lang, track_lang)` of `language_utils.py`:
an empty candidate never matches; otherwise lower-case both, check textual
equality, then the requested code's own alias set if it is a primary key,
and finally scan all alias sets for one containing both codes. -/
def is_language_match (requested_lang track_lang : String) : Bool :=
  if track_lang = "" then
    false
  else
    let requested_lower := str_lower requested_lang
    let track_lower := str_lower track_lang
    if requested_lower = track_lower then
      true
    else
      match LANGUAGE_MAPPING.find? (fun p => p.1 == requested_lower) with
      | some p => p.2.contains track_lower
      | none =>
          LANGUAGE_MAPPING.any fun p =>
            p.2.contains requested_lower && p.2.contains track_lower

/-- `has_language_in_set(requested_lang, lang_set)` of `language_utils.py`:
true iff some already-present language matches the requested one. -/
def has_language_in_set (requested_lang : String) (lang_set : List String) : Bool :=
  lang_set.any fun existing_lang => is_language_match requested_lang existing_lang

/-! ## Claims about the language matcher -/

set_option maxRecDepth 16384 in
/-- Claim C8: for every pair of language identifiers that belong to the same
alias set of the fixed alias table, `is_language_match` returns true in both
directions, regardless of which of the pair is the primary key of the set. -/
theorem c8_same_alias_set_symmetric :
    ∀ p ∈ LANGUAGE_MAPPING, ∀ a ∈ p.2, ∀ b ∈ p.2,
      is_language_match a b = true ∧ is_language_match b a = true := by
  decide

/-- Witness for C8 at a concrete pair: `rus` and `russian` both belong to the
alias set of primary key `ru`, and they match in both directions. -/
theorem c8_same_alias_set_symmetric_witness :
    is_language_match "rus" "russian" = true ∧
      is_language_match "russian" "rus" = true :=
  c8_same_alias_set_symmetric ("ru", ["ru", "rus", "russian"]) (by decide)
    "rus" (by decide) "russian" (by decide)

/-- Claim C10: the language match against an empty candidate language returns
false for every requested string — including when the requested string is
itself empty, where textual equality would otherwise make it true. -/
theorem c10_empty_candidate_never_matches :
    (∀ requested_lang, is_language_match requested_lang "" = false) ∧
      is_language_match "" "" = false :=
  ⟨fun _ => rfl, rfl⟩

/-! ## Natural sort

The program sorts with the external `natsorted` library; per the spec's
glossary, natural sort compares embedded numeric runs numerically rather
than lexicographically.  A string's key is its list of chunks (maximal
digit runs taken as numbers, other maximal runs as character lists),
compared lexicographically. -/

/-- One chunk of a natural-sort key: a maximal non-digit run, or the numeric
value of a maximal digit run. -/
inductive NatsortChunk
  | txt (cs : List Char)
  | num (n : Nat)
deriving DecidableEq, Repr

/-- Fold step of the chunker: the accumulator holds chunks in reverse order,
with text runs reversed; a digit extends a leading numeric chunk. -/
def natsort_push (acc : List NatsortChunk) (c : Char) : List NatsortChunk :=
  if c.isDigit then
    match acc with
    | .num n :: rest => .num (n * 10 + (c.toNat - 48)) :: rest
    | _ => .num (c.toNat - 48) :: acc
  else
    match acc with
    | .txt t :: rest => .txt (c :: t) :: rest
    | _ => .txt [c] :: acc

/-- Restore the character order inside a text chunk. -/
def natsort_chunk_rev : NatsortChunk → NatsortChunk
  | .txt t => .txt t.reverse
  | .num n => .num n

/-- The natural-sort key of a string. -/
def natsort_key (s : String) : List NatsortChunk :=
  ((s.data.foldl natsort_push []).map natsort_chunk_rev).reverse

/-- Lexicographic comparison of two lists from an element comparator. -/
def lexCmp (cmp : α → α → Ordering) : List α → List α → Ordering
  | [], [] => .eq
  | [], _ :: _ => .lt
  | _ :: _, [] => .gt
  | a :: as, b :: bs =>
      match cmp a b with
      | .eq => lexCmp cmp as bs
      | o => o

/-- Characters compare by code point. -/
def cmpChar (a b : Char) : Ordering := compare a.toNat b.toNat

/-- Chunk comparison: numbers compare numerically, text runs compare
lexicographically by code point, and a numeric run sorts before text. -/
def cmpChunk : NatsortChunk → NatsortChunk → Ordering
  | .num a, .num b => compare a b
  | .num _, .txt _ => .lt
  | .txt _, .num _ => .gt
  | .txt a, .txt b => lexCmp cmpChar a b

/-- The natural-sort comparison of two strings. -/
def natCmp (a b : String) : Ordering := lexCmp cmpChunk (natsort_key a) (natsort_key b)

/-- The natural-sort order: `a` comes no later than `b`. -/
def natLe (a b : String) : Prop := natCmp a b ≠ .gt

instance : DecidableRel natLe := fun a b => by unfold natLe; infer_instance

/-- The `natsorted` call of the source: sort a list of names into
natural-sort order. -/
def natsorted (l : List String) : List String := List.insertionSort natLe l

/-! ### Order theory of the natural-sort comparator -/

theorem nat_compare_swap (a b : Nat) : compare a b = (compare b a).swap := by
  rcases Nat.lt_trichotomy a b with h | h | h
  · rw [Nat.compare_eq_lt.2 h, Nat.compare_eq_gt.2 h]; rfl
  · subst h
    rw [Nat.compare_eq_eq.2 rfl]; rfl
  · rw [Nat.compare_eq_gt.2 h, Nat.compare_eq_lt.2 h]; rfl

theorem cmpChar_swap (a b : Char) : cmpChar a b = (cmpChar b a).swap :=
  nat_compare_swap a.toNat b.toNat

theorem cmpChar_eq_imp {a b : Char} (h : cmpChar a b = .eq) : a = b := by
  have hn : a.toNat = b.toNat := Nat.compare_eq_eq.1 h
  apply Char.ext
  apply UInt32.ext
  exact hn

theorem cmpChar_lt_trans {a b c : Char} (h₁ : cmpChar a b = .lt)
    (h₂ : cmpChar b c = .lt) : cmpChar a c = .lt :=
  Nat.compare_eq_lt.2 (Nat.lt_trans (Nat.compare_eq_lt.1 h₁) (Nat.compare_eq_lt.1 h₂))

theorem cmpChar_refl (a : Char) : cmpChar a a = .eq := Nat.compare_eq_eq.2 rfl

section LexCmp

variable {α : Type} {cmp : α → α → Ordering}

theorem lexCmp_swap (hswap : ∀ a b, cmp a b = (cmp b a).swap) :
    ∀ x y : List α, lexCmp cmp x y = (lexCmp cmp y x).swap := by
  intro x
  induction x with
  | nil => intro y; cases y <;> rfl
  | cons a as ih =>
      intro y
      cases y with
      | nil => rfl
      | cons b bs =>
          simp only [lexCmp, hswap a b]
          cases cmp b a with
          | lt => rfl
          | eq => exact ih bs
          | gt => rfl

theorem lexCmp_eq_imp (heq : ∀ a b, cmp a b = .eq → a = b) :
    ∀ x y : List α, lexCmp cmp x y = .eq → x = y := by
  intro x
  induction x with
  | nil => intro y; cases y <;> simp [lexCmp]
  | cons a as ih =>
      intro y
      cases y with
      | nil => simp [lexCmp]
      | cons b bs =>
          simp only [lexCmp]
          cases h : cmp a b with
          | lt => simp
          | gt => simp
          | eq => intro h2; rw [heq a b h, ih bs h2]

theorem lexCmp_lt_trans (heq : ∀ a b, cmp a b = .eq → a = b)
    (hlt : ∀ a b c, cmp a b = .lt → cmp b c = .lt → cmp a c = .lt) :
    ∀ x y z : List α, lexCmp cmp x y = .lt → lexCmp cmp y z = .lt →
      lexCmp cmp x z = .lt := by
  intro x
  induction x with
  | nil =>
      intro y z h₁ h₂
      cases y with
      | nil => exact h₂
      | cons b bs => cases z with
        | nil => simp [lexCmp] at h₂
        | cons c cs => rfl
  | cons a as ih =>
      intro y z h₁ h₂
      cases y with
      | nil => simp [lexCmp] at h₁
      | cons b bs =>
          cases z with
          | nil => simp [lexCmp] at h₂
          | cons c cs =>
              cases hab : cmp a b with
              | gt => simp [lexCmp, hab] at h₁
              | lt =>
                  cases hbc : cmp b c with
                  | gt => simp [lexCmp, hbc] at h₂
                  | lt => simp [lexCmp, hlt a b c hab hbc]
                  | eq =>
                      have hbc' : b = c := heq b c hbc
                      subst hbc'
                      simp [lexCmp, hab]
              | eq =>
                  have hab' : a = b := heq a b hab
                  simp only [lexCmp, hab] at h₁
                  cases hbc : cmp b c with
                  | gt => simp [lexCmp, hbc] at h₂
                  | lt =>
                      have hac : cmp a c = .lt := by rw [hab']; exact hbc
                      simp [lexCmp, hac]
                  | eq =>
                      have hbc' : b = c := heq b c hbc
                      have hac : cmp a c = .eq := by rw [← hbc']; exact hab
                      simp only [lexCmp, hbc] at h₂
                      simp only [lexCmp, hac]
                      exact ih bs cs h₁ h₂

theorem lexCmp_refl (hrefl : ∀ a, cmp a a = .eq) :
    ∀ x : List α, lexCmp cmp x x = .eq := by
  intro x
  induction x with
  | nil => rfl
  | cons a as ih => simp only [lexCmp, hrefl a, ih]

end LexCmp

theorem cmpChunk_swap (a b : NatsortChunk) : cmpChunk a b = (cmpChunk b a).swap := by
  cases a with
  | txt x =>
      cases b with
      | txt y => exact lexCmp_swap cmpChar_swap x y
      | num m => rfl
  | num n =>
      cases b with
      | txt y => rfl
      | num m => exact nat_compare_swap n m

theorem cmpChunk_eq_imp {a b : NatsortChunk} (h : cmpChunk a b = .eq) : a = b := by
  cases a with
  | txt x =>
      cases b with
      | txt y =>
          exact congrArg NatsortChunk.txt (lexCmp_eq_imp (fun _ _ => cmpChar_eq_imp) x y h)
      | num m => simp [cmpChunk] at h
  | num n =>
      cases b with
      | txt y => simp [cmpChunk] at h
      | num m => exact congrArg NatsortChunk.num (Nat.compare_eq_eq.1 h)

theorem cmpChunk_lt_trans {a b c : NatsortChunk} (h₁ : cmpChunk a b = .lt)
    (h₂ : cmpChunk b c = .lt) : cmpChunk a c = .lt := by
  cases a with
  | txt x =>
      cases b with
      | num m => simp [cmpChunk] at h₁
      | txt y =>
          cases c with
          | num k => simp [cmpChunk] at h₂
          | txt z =>
              exact lexCmp_lt_trans (fun _ _ => cmpChar_eq_imp)
                (fun _ _ _ => cmpChar_lt_trans) x y z h₁ h₂
  | num n =>
      cases b with
      | txt y =>
          cases c with
          | num k => simp [cmpChunk] at h₂
          | txt z => rfl
      | num m =>
          cases c with
          | txt z => rfl
          | num k =>
              exact Nat.compare_eq_lt.2
                (Nat.lt_trans (Nat.compare_eq_lt.1 h₁) (Nat.compare_eq_lt.1 h₂))

theorem cmpChunk_refl (a : NatsortChunk) : cmpChunk a a = .eq := by
  cases a with
  | txt x => exact lexCmp_refl cmpChar_refl x
  | num n => exact Nat.compare_eq_eq.2 rfl

theorem natCmp_swap (a b : String) : natCmp a b = (natCmp b a).swap :=
  lexCmp_swap cmpChunk_swap _ _

theorem natCmp_key_eq {a b : String} (h : natCmp a b = .eq) :
    natsort_key a = natsort_key b :=
  lexCmp_eq_imp (fun _ _ => cmpChunk_eq_imp) _ _ h

theorem natCmp_refl (a : String) : natCmp a a = .eq :=
  lexCmp_refl cmpChunk_refl _

theorem natLe_refl (a : String) : natLe a a := by
  unfold natLe
  rw [natCmp_refl]
  simp

instance : IsTotal String natLe :=
  ⟨fun a b => by
    unfold natLe
    by_cases h : natCmp a b = .gt
    · right
      rw [natCmp_swap b a, h]
      simp [Ordering.swap]
    · left; exact h⟩

instance : IsTrans String natLe :=
  ⟨fun a b c hab hbc => by
    unfold natLe at hab hbc ⊢
    cases h₁ : natCmp a b with
    | gt => exact absurd h₁ hab
    | eq =>
        have hk := natCmp_key_eq h₁
        unfold natCmp at hbc ⊢
        rw [hk]
        exact hbc
    | lt =>
        cases h₂ : natCmp b c with
        | gt => exact absurd h₂ hbc
        | eq =>
            have hk := natCmp_key_eq h₂
            unfold natCmp at h₁ ⊢
            rw [← hk]
            rw [h₁]
            simp
        | lt =>
            unfold natCmp at h₁ h₂ ⊢
            rw [lexCmp_lt_trans (fun _ _ => cmpChunk_eq_imp)
              (fun _ _ _ => cmpChunk_lt_trans) _ _ _ h₁ h₂]
            simp⟩

/-- The head of a `natsorted` list is a natural-sort minimum of the input. -/
theorem natsorted_head_min {l : List String} {c : String} {cs : List String}
    (h : natsorted l = c :: cs) : ∀ x ∈ l, natLe c x := by
  intro x hx
  have hs : List.Sorted natLe (natsorted l) := List.sorted_insertionSort natLe l
  rw [h] at hs
  have hx' : x ∈ natsorted l := (List.mem_insertionSort natLe).2 hx
  rw [h] at hx'
  rcases List.mem_cons.1 hx' with rfl | hmem
  · exact natLe_refl x
  · exact List.rel_of_sorted_cons hs x hmem

/-- `natsorted` returns the empty list only on the empty list. -/
theorem natsorted_eq_nil {l : List String} (h : natsorted l = []) : l = [] := by
  have hp := (List.perm_insertionSort natLe l).length_eq
  rw [natsorted] at h
  rw [h] at hp
  exact List.eq_nil_of_length_eq_zero hp.symm

/-! ## mkv_operations.py : sidecar discovery (`find_srt_file`)

A directory is modelled as the list of file names living beside the
container; `exact.exists()` is membership and `parent.glob(pattern)` is a
filter by the wildcard matcher. -/

/-- `SUBTITLE_EXTENSIONS` of `mkv_operations.py`, in priority order. -/
def SUBTITLE_EXTENSIONS : List String :=
  [".srt", ".ass", ".ssa", ".vtt", ".sup", ".sub", ".usf", ".kate"]

/-- `Path.with_suffix("")` on a file name: drop the chars from the last dot
on (the name unchanged when it has no dot). -/
def drop_last_suffix (name : String) : String :=
  match name.data.reverse.dropWhile (fun c => c != '.') with
  | [] => name
  | _ :: rest => ⟨rest.reverse⟩

/-- The exact-suffix sidecar name `<stem>.<lang><ext>` that
`mkv_path.with_suffix(f".{lang}{ext}")` produces. -/
def exact_name (stem lang ext : String) : String := stem ++ "." ++ lang ++ ext

/-- Whether a file name matches the glob pattern `f"{stem}.*.{lang}{ext}"`:
the name is `stem ++ "." ++ mid ++ "." ++ lang ++ ext` for some `mid`. -/
def glob_star_match (stem lang ext name : String) : Bool :=
  let pre := (stem ++ ".").data
  let suf := ("." ++ lang ++ ext).data
  pre.isPrefixOf name.data && suf.reverse.isPrefixOf name.data.reverse
    && decide (pre.length + suf.length ≤ name.data.length)

/-- The extension loop of `find_srt_file`: for each extension in order, the
exact-suffix name first, then the natural-sort-first wildcard candidate. -/
def find_srt_loop (files : List String) (stem lang : String) : List String → Option String
  | [] => none
  | ext :: rest =>
      let exact := exact_name stem lang ext
      if files.contains exact then some exact
      else
        let candidates := files.filter (glob_star_match stem lang ext)
        if candidates.isEmpty then find_srt_loop files stem lang rest
        else (natsorted candidates).head?

/-- `find_srt_file(mkv_path, check_lang)` of `mkv_operations.py` over the
list of sibling file names: none on an empty language, else lower-case the
language and run the extension loop on the container's stem. -/
def find_srt_file (files : List String) (mkv_name check_lang : String) : Option String :=
  if check_lang = "" then none
  else find_srt_loop files (drop_last_suffix mkv_name) (str_lower check_lang)
    SUBTITLE_EXTENSIONS

/-- Whether one extension yields any match, exact or wildcard, for the given
stem and language. -/
def ext_has_match (files : List String) (stem lang ext : String) : Bool :=
  files.contains (exact_name stem lang ext)
    || !(files.filter (glob_star_match stem lang ext)).isEmpty

theorem find_srt_loop_cons_no_match {files : List String} {stem lang ext : String}
    {rest : List String} (h : ext_has_match files stem lang ext = false) :
    find_srt_loop files stem lang (ext :: rest) = find_srt_loop files stem lang rest := by
  rw [ext_has_match, Bool.or_eq_false_iff] at h
  obtain ⟨h₁, h₂⟩ := h
  rw [Bool.not_eq_false'] at h₂
  simp only [find_srt_loop]
  rw [h₁, h₂]
  simp

theorem find_srt_loop_prefix_no_match {files : List String} {stem lang : String}
    {rest : List String} :
    ∀ pre : List String, (∀ e ∈ pre, ext_has_match files stem lang e = false) →
      find_srt_loop files stem lang (pre ++ rest) = find_srt_loop files stem lang rest := by
  intro pre
  induction pre with
  | nil => intro _; rfl
  | cons e es ih =>
      intro h
      rw [List.cons_append, find_srt_loop_cons_no_match (h e (List.mem_cons_self e es))]
      exact ih fun x hx => h x (List.mem_cons_of_mem e hx)

theorem find_srt_loop_exact {files : List String} {stem lang ext : String}
    {rest : List String} (h : files.contains (exact_name stem lang ext) = true) :
    find_srt_loop files stem lang (ext :: rest) = some (exact_name stem lang ext) := by
  simp only [find_srt_loop]
  rw [h]
  simp

theorem find_srt_loop_wildcard {files : List String} {stem lang ext : String}
    {rest : List String} {c : String} {cs : List String}
    (h₁ : files.contains (exact_name stem lang ext) = false)
    (h₂ : natsorted (files.filter (glob_star_match stem lang ext)) = c :: cs) :
    find_srt_loop files stem lang (ext :: rest) = some c := by
  have hne : (files.filter (glob_star_match stem lang ext)).isEmpty = false := by
    rcases he : (files.filter (glob_star_match stem lang ext)).isEmpty with _ | _
    · rfl
    · rw [List.isEmpty_iff] at he
      rw [he] at h₂
      simp [natsorted, List.insertionSort] at h₂
  simp only [find_srt_loop]
  rw [h₁, hne, h₂]
  simp

/-- Claim C7: for every container path and language, the sidecar search
checks the exact-suffix name `<stem>.<lang>.<ext>` before the wildcard
pattern at each extension, iterates the extension list
`[.srt, .ass, .ssa, .vtt, .sup, .sub, .usf, .kate]` in that priority order,
returns the natural-sort-first candidate when the wildcard pattern
`<stem>.*.<lang>.<ext>` matches several files (`movie.part1.en.srt` before
`movie.part2.en.srt`), and returns none when neither search finds a file. -/
theorem c7_sidecar_search :
    (find_srt_file ["movie.part2.en.srt", "movie.part1.en.srt"] "movie.mkv" "en"
        = some "movie.part1.en.srt")
    ∧
    (∀ (files : List String) (mkv_name check_lang : String)
        (pre : List String) (ext : String) (post : List String),
        check_lang ≠ "" →
        SUBTITLE_EXTENSIONS = pre ++ ext :: post →
        (∀ e ∈ pre,
          ext_has_match files (drop_last_suffix mkv_name) (str_lower check_lang) e
            = false) →
        ((files.contains
            (exact_name (drop_last_suffix mkv_name) (str_lower check_lang) ext) = true →
          find_srt_file files mkv_name check_lang
            = some (exact_name (drop_last_suffix mkv_name) (str_lower check_lang) ext))
        ∧
        (files.contains
            (exact_name (drop_last_suffix mkv_name) (str_lower check_lang) ext) = false →
          ∀ (c : String) (cs : List String),
            natsorted (files.filter
                (glob_star_match (drop_last_suffix mkv_name) (str_lower check_lang) ext))
              = c :: cs →
            find_srt_file files mkv_name check_lang = some c ∧
              ∀ x ∈ files.filter
                  (glob_star_match (drop_last_suffix mkv_name) (str_lower check_lang) ext),
                natLe c x)))
    ∧
    (∀ (files : List String) (mkv_name check_lang : String),
        (∀ e ∈ SUBTITLE_EXTENSIONS,
          ext_has_match files (drop_last_suffix mkv_name) (str_lower check_lang) e
            = false) →
        find_srt_file files mkv_name check_lang = none) := by
  refine ⟨by decide, ?_, ?_⟩
  · intro files mkv_name check_lang pre ext post hne hsplit hpre
    have hfind : find_srt_file files mkv_name check_lang
        = find_srt_loop files (drop_last_suffix mkv_name) (str_lower check_lang)
            (pre ++ ext :: post) := by
      rw [find_srt_file, if_neg hne, hsplit]
    rw [hfind, find_srt_loop_prefix_no_match pre hpre]
    refine ⟨fun hex => find_srt_loop_exact hex, fun hex c cs hnat => ?_⟩
    exact ⟨find_srt_loop_wildcard hex hnat, natsorted_head_min hnat⟩
  · intro files mkv_name check_lang hall
    by_cases h : check_lang = ""
    · rw [find_srt_file, if_pos h]
    · rw [find_srt_file, if_neg h]
      have := @find_srt_loop_prefix_no_match files (drop_last_suffix mkv_name)
        (str_lower check_lang) [] SUBTITLE_EXTENSIONS hall
      rw [List.append_nil] at this
      rw [this]
      rfl

/-- Witness for C7 at concrete inputs: an exact `.ass` match found after a
matchless `.srt` round, and a search over one unrelated file finding
nothing. -/
theorem c7_sidecar_search_witness :
    find_srt_file ["movie.en.ass"] "movie.mkv" "en" = some "movie.en.ass" ∧
      find_srt_file ["movie.xyz"] "movie.mkv" "en" = none := by
  constructor
  · have h := (c7_sidecar_search.2.1 ["movie.en.ass"] "movie.mkv" "en"
      [".srt"] ".ass" [".ssa", ".vtt", ".sup", ".sub", ".usf", ".kate"]
      (by decide) (by decide) (by decide)).1 (by decide)
    exact h
  · exact c7_sidecar_search.2.2 ["movie.xyz"] "movie.mkv" "en" (by decide)

/-! ## Filesystem model

Paths are component lists, file contents are abstract, and every mutating
filesystem call the program makes is recorded in an effect log.  External
capabilities (the mkvmerge mux call, track extraction) are oracle
parameters: booleans saying whether the external call succeeds, plus the
content it would produce. -/

/-- A filesystem path, as its list of components. -/
abbrev FsPath := List String

/-- Abstract file contents. -/
abbrev Content := Nat

/-- A mutating filesystem call performed by the program. -/
inductive Effect
  | mkdir (dir : FsPath)
  | createTemp (p : FsPath)
  | muxWrite (p : FsPath)
  | unlink (p : FsPath)
  | replaceFile (src dst : FsPath)
  | copyFile (src dst : FsPath)
deriving DecidableEq, Repr

/-- The filesystem plus the mutation and log history of one run. -/
structure World where
  fs : List (FsPath × Content)
  dirs : List FsPath
  effects : List Effect
  logs : List String
deriving DecidableEq, Repr

/-- Content of the file at a path, if any. -/
def lookupFS : List (FsPath × Content) → FsPath → Option Content
  | [], _ => none
  | e :: rest, p => if e.1 = p then some e.2 else lookupFS rest p

/-- Remove the file at a path. -/
def removeFS : List (FsPath × Content) → FsPath → List (FsPath × Content)
  | [], _ => []
  | e :: rest, p => if e.1 = p then removeFS rest p else e :: removeFS rest p

/-- Write (create or overwrite) the file at a path. -/
def writeFS (fs : List (FsPath × Content)) (p : FsPath) (c : Content) :
    List (FsPath × Content) :=
  (p, c) :: removeFS fs p

theorem lookupFS_removeFS_self (fs : List (FsPath × Content)) (p : FsPath) :
    lookupFS (removeFS fs p) p = none := by
  induction fs with
  | nil => rfl
  | cons e rest ih =>
      by_cases h : e.1 = p
      · simp [removeFS, h, ih]
      · simp [removeFS, lookupFS, h, ih]

theorem lookupFS_removeFS_ne {p q : FsPath} (fs : List (FsPath × Content))
    (h : p ≠ q) : lookupFS (removeFS fs q) p = lookupFS fs p := by
  induction fs with
  | nil => rfl
  | cons e rest ih =>
      by_cases he : e.1 = q
      · have hep : e.1 ≠ p := by rw [he]; exact fun hq => h hq.symm
        simp only [removeFS, if_pos he, lookupFS, if_neg hep, ih]
      · by_cases hp : e.1 = p
        · simp only [removeFS, if_neg he, lookupFS, if_pos hp]
        · simp only [removeFS, if_neg he, lookupFS, if_neg hp, ih]

theorem lookupFS_writeFS_self (fs : List (FsPath × Content)) (p : FsPath) (c : Content) :
    lookupFS (writeFS fs p c) p = some c := by
  simp [writeFS, lookupFS]

theorem lookupFS_writeFS_ne {p q : FsPath} (fs : List (FsPath × Content)) (c : Content)
    (h : p ≠ q) : lookupFS (writeFS fs q c) p = lookupFS fs p := by
  have : q ≠ p := fun hq => h hq.symm
  simp [writeFS, lookupFS, this, lookupFS_removeFS_ne fs h]

/-! ## mkv_operations.py : output path, temporary files, mux protocol -/

/-- `target.parent.mkdir(parents=True, exist_ok=True)`: create every missing
ancestor of the directory, recording an effect for each one created. -/
def mkdir_parents (w : World) (dir : FsPath) : World :=
  (List.range dir.length).foldl
    (fun acc i =>
      let d := dir.take (i + 1)
      if d ∈ acc.dirs then acc
      else { acc with dirs := d :: acc.dirs, effects := acc.effects ++ [.mkdir d] })
    w

/-- `compute_output_path(mkv_path, root, output_dir)` of `mkv_operations.py`:
no output directory means in-place; otherwise mirror the container's path
relative to root under the output directory, falling back to the bare file
name when the container is not under root, and create the destination's
missing parent directories as a side effect. -/
def compute_output_path (w : World) (mkv_path root : FsPath)
    (output_dir : Option FsPath) : FsPath × World :=
  match output_dir with
  | none => (mkv_path, w)
  | some out =>
      let rel := if root.isPrefixOf mkv_path then mkv_path.drop root.length
                 else [mkv_path.getLastD ""]
      let target := out ++ rel
      (target, mkdir_parents w target.dropLast)

/-- The system temporary directory, used by `tempfile.NamedTemporaryFile`
when no `dir` argument is given. -/
def sys_temp_dir : FsPath := ["tmp"]

/-- A name in the system temporary directory that no existing file has:
longer than every file name recorded in the filesystem. -/
def fresh_temp_path (fs : List (FsPath × Content)) : FsPath :=
  let m := (fs.map fun e => (e.1.getD 1 "").length).foldr Nat.max 0
  sys_temp_dir ++ [String.mk (List.replicate (m + 1) 't')]

theorem le_foldr_max (l : List Nat) : ∀ x ∈ l, x ≤ l.foldr Nat.max 0 := by
  induction l with
  | nil => intro x hx; cases hx
  | cons a rest ih =>
      intro x hx
      rcases List.mem_cons.1 hx with rfl | hmem
      · exact Nat.le_max_left _ _
      · exact Nat.le_trans (ih x hmem) (Nat.le_max_right _ _)

/-- The fresh temporary path collides with no existing file. -/
theorem lookupFS_fresh_temp_path (fs : List (FsPath × Content)) :
    lookupFS fs (fresh_temp_path fs) = none := by
  by_contra h
  have hmem : ∀ (l : List (FsPath × Content)) (p : FsPath),
      lookupFS l p ≠ none → ∃ e ∈ l, e.1 = p := by
    intro l
    induction l with
    | nil => intro p hp; exact absurd rfl hp
    | cons e rest ih =>
        intro p hp
        by_cases he : e.1 = p
        · exact ⟨e, List.mem_cons_self e rest, he⟩
        · rw [lookupFS, if_neg he] at hp
          obtain ⟨x, hx, hxp⟩ := ih p hp
          exact ⟨x, List.mem_cons_of_mem e hx, hxp⟩
  obtain ⟨e, he, hep⟩ := hmem fs (fresh_temp_path fs) h
  have hlen : (e.1.getD 1 "").length
      ≤ ((fs.map fun x => (x.1.getD 1 "").length).foldr Nat.max 0) :=
    le_foldr_max _ _ (List.mem_map_of_mem _ he)
  rw [hep] at hlen
  have hcalc : ((fresh_temp_path fs).getD 1 "").length
      = ((fs.map fun x => (x.1.getD 1 "").length).foldr Nat.max 0) + 1 := by
    show (List.replicate _ 't').length = _
    exact List.length_replicate _ _
  rw [hcalc] at hlen
  omega

/-- `tempfile.NamedTemporaryFile(delete=False, suffix=".mkv")`: create a new
empty file under a fresh name in the system temporary directory and return
its path. -/
def named_temporary_file (w : World) : FsPath × World :=
  let tmp := fresh_temp_path w.fs
  (tmp, { w with fs := writeFS w.fs tmp 0, effects := w.effects ++ [.createTemp tmp] })

/-- The temporary-path choice at the top of `mux_with_subtitle`: a fresh
temporary file when the destination equals the source, otherwise write
directly to the destination. -/
def mux_temp_choice (w : World) (mkv_path output_path : FsPath) : FsPath × World :=
  if output_path = mkv_path then named_temporary_file w else (output_path, w)

/-- `perform_mux_operation` of `mkv_operations.py`: run the external
`mkv.mux(tmp_path)` call; per the `mux_ok` oracle it either writes the muxed
container `muxed` to `tmp_path` and succeeds, or raises having written
nothing. -/
def perform_mux_operation (w : World) (mux_ok : Bool) (tmp : FsPath)
    (muxed : Content) : World × Bool :=
  if mux_ok then
    ({ w with fs := writeFS w.fs tmp muxed, effects := w.effects ++ [.muxWrite tmp] },
      true)
  else (w, false)

/-- Move the file at `src` to `dst` (`Path.replace`, falling back to
`shutil.move` on `OSError`; both end states coincide).  The flows proved
below only move files that exist; a missing source leaves the world
unchanged. -/
def move_file (w : World) (src dst : FsPath) : World :=
  match lookupFS w.fs src with
  | some c =>
      { w with fs := writeFS (removeFS w.fs src) dst c,
               effects := w.effects ++ [.replaceFile src dst] }
  | none => w

/-- `handle_file_operations(tmp, output_path, mkv_path)` of
`mkv_operations.py`: when temp, output and source are all distinct, delete a
pre-existing output file then move temp to output; when only the temp
differs, move it over the source (replace-in-place); when temp equals
output, nothing is left to do. -/
def handle_file_operations (w : World) (tmp output_path mkv_path : FsPath) : World :=
  if tmp ≠ output_path ∧ output_path ≠ mkv_path then
    let w₁ :=
      if (lookupFS w.fs output_path).isSome then
        { w with fs := removeFS w.fs output_path,
                 effects := w.effects ++ [.unlink output_path] }
      else w
    move_file w₁ tmp output_path
  else if tmp ≠ output_path then
    move_file w tmp mkv_path
  else w

/-- Per-job errors that can propagate out of a job function. -/
inductive JobErr
  | muxFailed
deriving DecidableEq, Repr

/-- `mux_with_subtitle(mkv_path, srt_path, lang, output_path, ...)` of
`mkv_operations.py` over the filesystem model.  `mux_ok` is the outcome of
the external mux call and `muxed` the container it produces.  On mux
failure the error is logged and, unless `ignore_mux_errors` is set,
propagated before any replace step. -/
def mux_with_subtitle (w : World) (mkv_path srt_path : FsPath) (lang : String)
    (output_path : FsPath) (is_ai_translated ignore_mux_errors : Bool)
    (mux_ok : Bool) (muxed : Content) : World × Option JobErr :=
  let tw := mux_temp_choice w mkv_path output_path
  let tmp := tw.1
  match perform_mux_operation tw.2 mux_ok tmp muxed with
  | (w₂, true) => (handle_file_operations w₂ tmp output_path mkv_path, none)
  | (w₂, false) =>
      if ignore_mux_errors then
        (handle_file_operations
          { w₂ with logs := w₂.logs ++ ["mux error ignored"] }
          tmp output_path mkv_path, none)
      else
        ({ w₂ with logs := w₂.logs ++ ["mux failed"] }, some .muxFailed)

/-! ## Claims about the mux protocol -/

/-- Claim C3: in the add-track (mux) protocol, if the mutate operation fails
and `ignore_mux_errors` is not set, the failure is propagated and the job
aborts without touching the original container file: the file at the source
path is exactly as it was before the job started. -/
theorem c3_mux_failure_keeps_source :
    ∀ (w : World) (mkv_path srt_path : FsPath) (lang : String)
      (output_path : FsPath) (is_ai_translated : Bool) (muxed : Content),
      lookupFS w.fs mkv_path ≠ none →
      (mux_with_subtitle w mkv_path srt_path lang output_path is_ai_translated
          false false muxed).2 = some .muxFailed ∧
        lookupFS (mux_with_subtitle w mkv_path srt_path lang output_path
            is_ai_translated false false muxed).1.fs mkv_path
          = lookupFS w.fs mkv_path := by
  intro w mkv_path srt_path lang output_path ai muxed hmkv
  have hfresh := lookupFS_fresh_temp_path w.fs
  by_cases hout : output_path = mkv_path
  · have hne : mkv_path ≠ fresh_temp_path w.fs := by
      intro hcontra
      rw [← hcontra] at hfresh
      exact hmkv hfresh
    constructor
    · simp [mux_with_subtitle, mux_temp_choice, hout, named_temporary_file,
        perform_mux_operation]
    · simp [mux_with_subtitle, mux_temp_choice, hout, named_temporary_file,
        perform_mux_operation, lookupFS_writeFS_ne _ _ hne]
  · constructor
    · simp [mux_with_subtitle, mux_temp_choice, hout, perform_mux_operation]
    · simp [mux_with_subtitle, mux_temp_choice, hout, perform_mux_operation]

/-- Witness for C3: a concrete failing mux on an in-place job propagates the
error and leaves the source file's content unchanged. -/
theorem c3_mux_failure_keeps_source_witness :
    (mux_with_subtitle
        { fs := [(["movies", "a.mkv"], 7)], dirs := [["movies"]],
          effects := [], logs := [] }
        ["movies", "a.mkv"] ["movies", "a.en.srt"] "eng" ["movies", "a.mkv"]
        false false false 9).2 = some .muxFailed ∧
      lookupFS (mux_with_subtitle
          { fs := [(["movies", "a.mkv"], 7)], dirs := [["movies"]],
            effects := [], logs := [] }
          ["movies", "a.mkv"] ["movies", "a.en.srt"] "eng" ["movies", "a.mkv"]
          false false false 9).1.fs ["movies", "a.mkv"]
        = lookupFS [(["movies", "a.mkv"], 7)] ["movies", "a.mkv"] :=
  c3_mux_failure_keeps_source
    { fs := [(["movies", "a.mkv"], 7)], dirs := [["movies"]],
      effects := [], logs := [] }
    ["movies", "a.mkv"] ["movies", "a.en.srt"] "eng" ["movies", "a.mkv"]
    false 9 (by decide)

/-- Counterexample to Claim C6 as stated: with destination equal to source,
the temporary file is created in the system temporary directory, not in the
same directory as the source container. -/
theorem c6_counterexample :
    (mux_temp_choice
        { fs := [(["movies", "a.mkv"], 1)], dirs := [["movies"]],
          effects := [], logs := [] }
        ["movies", "a.mkv"] ["movies", "a.mkv"]).1.dropLast
      ≠ (["movies", "a.mkv"] : FsPath).dropLast := by
  decide

/-- Claim C6 amended: whenever the destination path equals the source path,
the mutated result is written to a freshly created temporary file located in
the system temporary directory (the `tempfile` default, not the source's
directory), and on mux success the temp file replaces the source. -/
theorem c6_temp_in_system_tmp :
    ∀ (w : World) (mkv_path srt_path : FsPath) (lang : String)
      (is_ai_translated : Bool) (muxed : Content),
      lookupFS w.fs mkv_path ≠ none →
      ((mux_temp_choice w mkv_path mkv_path).1.dropLast = sys_temp_dir ∧
        lookupFS w.fs (mux_temp_choice w mkv_path mkv_path).1 = none ∧
        lookupFS (mux_temp_choice w mkv_path mkv_path).2.fs
            (mux_temp_choice w mkv_path mkv_path).1 = some 0) ∧
      ((mux_with_subtitle w mkv_path srt_path lang mkv_path is_ai_translated
          false true muxed).2 = none ∧
        lookupFS (mux_with_subtitle w mkv_path srt_path lang mkv_path
            is_ai_translated false true muxed).1.fs mkv_path = some muxed) := by
  intro w mkv_path srt_path lang ai muxed hmkv
  have hfresh := lookupFS_fresh_temp_path w.fs
  have htc : mux_temp_choice w mkv_path mkv_path = named_temporary_file w :=
    if_pos rfl
  have hne : fresh_temp_path w.fs ≠ mkv_path := by
    intro hcontra
    rw [hcontra] at hfresh
    exact hmkv hfresh
  refine ⟨⟨?_, ?_, ?_⟩, ?_, ?_⟩
  · rw [htc]
    show (sys_temp_dir ++ [_]).dropLast = sys_temp_dir
    exact List.dropLast_concat
  · rw [htc]
    exact hfresh
  · rw [htc]
    exact lookupFS_writeFS_self _ _ _
  · simp [mux_with_subtitle, mux_temp_choice, named_temporary_file,
      perform_mux_operation, handle_file_operations, hne, move_file,
      lookupFS_writeFS_self]
  · simp [mux_with_subtitle, mux_temp_choice, named_temporary_file,
      perform_mux_operation, handle_file_operations, hne, move_file,
      lookupFS_writeFS_self]

/-- Witness for the amended C6 at a concrete in-place job: the temp path
lives under the system temporary directory, is fresh, and on success the
source holds the muxed content. -/
theorem c6_temp_in_system_tmp_witness :
    ((mux_temp_choice
        { fs := [(["movies", "a.mkv"], 1)], dirs := [["movies"]],
          effects := [], logs := [] }
        ["movies", "a.mkv"] ["movies", "a.mkv"]).1.dropLast = sys_temp_dir) ∧
      lookupFS (mux_with_subtitle
          { fs := [(["movies", "a.mkv"], 1)], dirs := [["movies"]],
            effects := [], logs := [] }
          ["movies", "a.mkv"] ["movies", "a.en.srt"] "eng" ["movies", "a.mkv"]
          false false true 5).1.fs ["movies", "a.mkv"] = some 5 := by
  have h := c6_temp_in_system_tmp
    { fs := [(["movies", "a.mkv"], 1)], dirs := [["movies"]],
      effects := [], logs := [] }
    ["movies", "a.mkv"] ["movies", "a.en.srt"] "eng" false 5 (by decide)
  exact ⟨h.1.1, h.2.2⟩

/-! ## stats.py and the per-file jobs of cli.py -/

/-- `ProcessingStats` of `stats.py`: the per-run counter set. -/
structure ProcessingStats where
  total : Nat := 0
  processed : Nat := 0
  skipped_has_lang : Nat := 0
  skipped_no_srt : Nat := 0
deriving DecidableEq, Repr

/-- One embedded track as `pymkv.MKVTrack` exposes it; a missing language
is the empty string. -/
structure MKVTrack where
  track_id : Nat
  track_type : String
  language : String
  track_codec : String
deriving DecidableEq, Repr

/-- Outcome of opening a container with the external `MKVFile` capability:
`none` when the probe raises, else the track list. -/
structure MkvProbe where
  tracks : Option (List MKVTrack)
deriving DecidableEq, Repr

/-- `probe_subtitle_languages(mkv_path)` of `mkv_operations.py`: the
lower-cased language of every subtitle track with one; a probe failure is
caught and yields the empty set. -/
def probe_subtitle_languages (probe : MkvProbe) : List String :=
  match probe.tracks with
  | none => []
  | some ts =>
      ((ts.filter fun t => t.track_type == "subtitles").filter
          fun t => t.language != "").map fun t => str_lower t.language

/-- `find_subtitle_track_in_mkv(mkv_path, lang)` of `mkv_operations.py`:
the first subtitle track (container order) whose language matches; `none`
on no match or probe failure (caught). -/
def find_subtitle_track_in_mkv (probe : MkvProbe) (lang : String) : Option MKVTrack :=
  match probe.tracks with
  | none => none
  | some ts =>
      (ts.filter fun t => t.track_type == "subtitles").find?
        fun t => is_language_match lang t.language

/-- `CODEC_TO_EXTENSION` of `mkv_operations.py`. -/
def CODEC_TO_EXTENSION : List (String × String) :=
  [("S_TEXT/UTF8", ".srt"),
   ("S_TEXT/ASS", ".ass"),
   ("S_TEXT/SSA", ".ssa"),
   ("S_TEXT/WEBVTT", ".vtt"),
   ("S_HDMV/PGS", ".sup"),
   ("S_DVBSUB", ".sub"),
   ("S_VOBSUB", ".sub"),
   ("S_TEXT/USF", ".usf"),
   ("S_KATE", ".kate"),
   ("SubStationAlpha", ".ass"),
   ("SubRip/SRT", ".srt"),
   ("WEBVTT", ".vtt"),
   ("HDMV PGS", ".sup"),
   ("DVB subtitles", ".sub"),
   ("VobSub", ".sub")]

/-- `CODEC_TO_EXTENSION.get(codec, ".srt")`. -/
def codec_extension (codec : String) : String :=
  match CODEC_TO_EXTENSION.find? (fun p => p.1 == codec) with
  | some p => p.2
  | none => ".srt"

/-- Oracle for one extract job: whether the external `track.extract` call
materializes the file, whether the subsequent copy-or-move save succeeds,
and the extracted content. -/
structure ExtractEnv where
  extract_ok : Bool
  copy_ok : Bool
  extracted : Content
deriving DecidableEq, Repr

/-- The failures that can arise inside `extract_subtitle_from_mkv`; each is
caught by one of its two `except` blocks and never escapes the function. -/
inductive ExtractErr
  | extractionFailed
  | saveFailed
deriving DecidableEq, Repr

/-- The body of `extract_subtitle_from_mkv` up to its `except` handlers:
extract the track to a system temporary location, then create the final
sidecar's parents, drop a pre-existing sidecar of the same name, and copy
(or move) the extracted file into place. -/
def extract_subtitle_body (w : World) (track : MKVTrack) (mkv_path : FsPath)
    (lang : String) (env : ExtractEnv) : World × Option ExtractErr :=
  let extension := codec_extension track.track_codec
  let mkv_stem := drop_last_suffix (mkv_path.getLastD "")
  let final_path := mkv_path.dropLast ++ [mkv_stem ++ "." ++ lang ++ extension]
  if env.extract_ok then
    let w₁ := mkdir_parents w final_path.dropLast
    let w₂ :=
      if (lookupFS w₁.fs final_path).isSome then
        { w₁ with fs := removeFS w₁.fs final_path,
                  effects := w₁.effects ++ [.unlink final_path] }
      else w₁
    if env.copy_ok then
      ({ w₂ with fs := writeFS w₂.fs final_path env.extracted,
                 effects := w₂.effects ++ [.copyFile sys_temp_dir final_path] },
        none)
    else (w₂, some .saveFailed)
  else (w, some .extractionFailed)

/-- `extract_subtitle_from_mkv(track, mkv_path, lang)` of
`mkv_operations.py`: run the body and catch every failure, converting it
into an error log line; the function never raises. -/
def extract_subtitle_from_mkv (w : World) (track : MKVTrack) (mkv_path : FsPath)
    (lang : String) (env : ExtractEnv) : World :=
  match extract_subtitle_body w track mkv_path lang env with
  | (w₁, none) => w₁
  | (w₁, some .saveFailed) =>
      { w₁ with logs := w₁.logs ++ ["failed to save extracted subtitle"] }
  | (w₁, some .extractionFailed) =>
      { w₁ with logs := w₁.logs ++ ["extraction failed"] }

/-- The sibling file names of a container: the names of the files in the
same directory, over which `exists()` and `glob` run. -/
def siblings (w : World) (mkv_path : FsPath) : List String :=
  (w.fs.filter fun e => e.1.dropLast = mkv_path.dropLast).filterMap
    fun e => e.1.getLast?

/-- The language loop of `process_single_mkv_export` of `cli.py`: for each
language in priority order, skip when a sidecar already exists, else
extract the first matching embedded track; after the loop the file counts
as skipped-no-srt. -/
def export_lang_loop (w : World) (stats : ProcessingStats) (mkv_path : FsPath)
    (probe : MkvProbe) (env : ExtractEnv) (dry_run : Bool) :
    List String → World × ProcessingStats
  | [] => (w, { stats with skipped_no_srt := stats.skipped_no_srt + 1 })
  | lang :: rest =>
      match find_srt_file (siblings w mkv_path) (mkv_path.getLastD "") lang with
      | some _ => (w, { stats with skipped_has_lang := stats.skipped_has_lang + 1 })
      | none =>
          match find_subtitle_track_in_mkv probe lang with
          | some track =>
              if dry_run then (w, { stats with processed := stats.processed + 1 })
              else (extract_subtitle_from_mkv w track mkv_path lang env,
                    { stats with processed := stats.processed + 1 })
          | none => export_lang_loop w stats mkv_path probe env dry_run rest

/-- `process_single_mkv_export(mkv, language_priority, ...)` of `cli.py`. -/
def process_single_mkv_export (w : World) (stats : ProcessingStats)
    (mkv_path : FsPath) (language_priority : List String) (probe : MkvProbe)
    (env : ExtractEnv) (dry_run : Bool) : World × ProcessingStats :=
  export_lang_loop w { stats with total := stats.total + 1 } mkv_path probe env
    dry_run language_priority

/-- `process_single_mkv(mkv, lang_check, lang_set, ...)` of `cli.py`: count
the file, skip when the container already has the target language, skip
when no sidecar is found, compute the output path, then either preview
(dry-run) or mux; a mux failure propagates out of the job (the missing
`processed` increment mirrors the skipped statement after the raise). -/
def process_single_mkv (w : World) (stats : ProcessingStats) (mkv_path : FsPath)
    (lang_check lang_set : String) (root : FsPath) (output_dir : Option FsPath)
    (ai_translated ignore_mux_errors dry_run : Bool) (probe : MkvProbe)
    (mux_ok : Bool) (muxed : Content) :
    World × ProcessingStats × Option JobErr :=
  let stats := { stats with total := stats.total + 1 }
  let langs := probe_subtitle_languages probe
  if has_language_in_set lang_set langs then
    (w, { stats with skipped_has_lang := stats.skipped_has_lang + 1 }, none)
  else
    match find_srt_file (siblings w mkv_path) (mkv_path.getLastD "") lang_check with
    | none => (w, { stats with skipped_no_srt := stats.skipped_no_srt + 1 }, none)
    | some srt_name =>
        let tw := compute_output_path w mkv_path root output_dir
        if dry_run then
          (tw.2, { stats with processed := stats.processed + 1 }, none)
        else
          match mux_with_subtitle tw.2 mkv_path (mkv_path.dropLast ++ [srt_name])
              lang_set tw.1 ai_translated ignore_mux_errors mux_ok muxed with
          | (w₁, none) => (w₁, { stats with processed := stats.processed + 1 }, none)
          | (w₁, some e) => (w₁, stats, some e)

/-! ## Claims about dry-run effects and stats accounting -/

/-- Counterexample to Claim C2 as stated: a dry-run merge job with an output
directory configured still creates the missing destination parent directory
(`compute_output_path` runs its `mkdir` before the dry-run check), so
dry-run does not guarantee zero filesystem side effects. -/
theorem c2_counterexample :
    (process_single_mkv
        { fs := [(["root", "a.mkv"], 1), (["root", "a.en.srt"], 2)],
          dirs := [["root"]], effects := [], logs := [] }
        ⟨0, 0, 0, 0⟩ ["root", "a.mkv"] "en" "eng" ["root"] (some ["out"])
        false false true ⟨some []⟩ true 0).1.effects
      = [.mkdir ["out"]] := by
  decide

/-- Claim C2 amended: a dry-run job performs the read-side steps and skips
the mux call, but when an output directory is configured it still creates
missing destination parent directories; with no output directory configured
it performs no mutating call at all, returning the world unchanged. -/
theorem c2_dry_run_inplace_pure :
    ∀ (w : World) (stats : ProcessingStats) (mkv_path : FsPath)
      (lang_check lang_set : String) (root : FsPath) (ai ign : Bool)
      (probe : MkvProbe) (mux_ok : Bool) (muxed : Content),
      (process_single_mkv w stats mkv_path lang_check lang_set root none
          ai ign true probe mux_ok muxed).1 = w := by
  intro w stats mkv_path lang_check lang_set root ai ign probe mux_ok muxed
  unfold process_single_mkv
  cases hl : has_language_in_set lang_set (probe_subtitle_languages probe)
  · simp only [hl]
    cases hf : find_srt_file (siblings w mkv_path) (mkv_path.getLastD "") lang_check
    · simp [hf]
    · simp [hf, compute_output_path]
  · simp [hl]

/-- The stats delta of a normally completed job: exactly one of the three
outcome counters is incremented exactly once. -/
def exactly_one_outcome (s s' : ProcessingStats) : Prop :=
  (s'.processed = s.processed + 1 ∧ s'.skipped_has_lang = s.skipped_has_lang ∧
      s'.skipped_no_srt = s.skipped_no_srt) ∨
  (s'.processed = s.processed ∧ s'.skipped_has_lang = s.skipped_has_lang + 1 ∧
      s'.skipped_no_srt = s.skipped_no_srt) ∨
  (s'.processed = s.processed ∧ s'.skipped_has_lang = s.skipped_has_lang ∧
      s'.skipped_no_srt = s.skipped_no_srt + 1)

/-- The stats delta of a job that raised: no outcome counter moved. -/
def no_outcome_change (s s' : ProcessingStats) : Prop :=
  s'.processed = s.processed ∧ s'.skipped_has_lang = s.skipped_has_lang ∧
    s'.skipped_no_srt = s.skipped_no_srt

/-- Counterexample to Claim C4 as stated: on the control-flow path where the
mux step fails with `ignore_mux_errors` unset, the job raises after
incrementing `total`, and no outcome counter is incremented — not every
path yields an outcome increment. -/
theorem c4_counterexample :
    ((process_single_mkv
        { fs := [(["root", "a.mkv"], 1), (["root", "a.en.srt"], 2)],
          dirs := [["root"]], effects := [], logs := [] }
        ⟨0, 0, 0, 0⟩ ["root", "a.mkv"] "en" "eng" ["root"] none
        false false false ⟨some []⟩ false 0).2.1
      = ⟨1, 0, 0, 0⟩) ∧
    (process_single_mkv
        { fs := [(["root", "a.mkv"], 1), (["root", "a.en.srt"], 2)],
          dirs := [["root"]], effects := [], logs := [] }
        ⟨0, 0, 0, 0⟩ ["root", "a.mkv"] "en" "eng" ["root"] none
        false false false ⟨some []⟩ false 0).2.2 = some .muxFailed := by
  constructor <;> decide

theorem export_lang_loop_accounting (w : World) (stats : ProcessingStats)
    (mkv_path : FsPath) (probe : MkvProbe) (env : ExtractEnv) (dry : Bool) :
    ∀ langs : List String,
      (export_lang_loop w stats mkv_path probe env dry langs).2.total = stats.total ∧
      exactly_one_outcome stats (export_lang_loop w stats mkv_path probe env dry langs).2 := by
  intro langs
  induction langs with
  | nil =>
      exact ⟨rfl, Or.inr (Or.inr ⟨rfl, rfl, rfl⟩)⟩
  | cons lang rest ih =>
      unfold export_lang_loop
      cases hf : find_srt_file (siblings w mkv_path) (mkv_path.getLastD "") lang with
      | some srt => exact ⟨rfl, Or.inr (Or.inl ⟨rfl, rfl, rfl⟩)⟩
      | none =>
          cases ht : find_subtitle_track_in_mkv probe lang with
          | some track =>
              cases dry
              · exact ⟨rfl, Or.inl ⟨rfl, rfl, rfl⟩⟩
              · exact ⟨rfl, Or.inl ⟨rfl, rfl, rfl⟩⟩
          | none => exact ih

/-- Claim C4 amended: every job increments `total` exactly once, and every
job that completes without raising increments exactly one outcome counter
exactly once (export jobs never raise and always do); but on the merge path
where the mux step fails with `ignore_mux_errors` unset, the job raises
after the `total` increment and increments no outcome counter. -/
theorem c4_stats_accounting :
    (∀ (w : World) (stats : ProcessingStats) (mkv_path : FsPath)
        (lang_check lang_set : String) (root : FsPath) (output_dir : Option FsPath)
        (ai ign dry : Bool) (probe : MkvProbe) (mux_ok : Bool) (muxed : Content),
      (process_single_mkv w stats mkv_path lang_check lang_set root output_dir
          ai ign dry probe mux_ok muxed).2.1.total = stats.total + 1 ∧
      ((process_single_mkv w stats mkv_path lang_check lang_set root output_dir
          ai ign dry probe mux_ok muxed).2.2 = none →
        exactly_one_outcome stats
          (process_single_mkv w stats mkv_path lang_check lang_set root output_dir
            ai ign dry probe mux_ok muxed).2.1) ∧
      ((process_single_mkv w stats mkv_path lang_check lang_set root output_dir
          ai ign dry probe mux_ok muxed).2.2 ≠ none →
        no_outcome_change stats
          (process_single_mkv w stats mkv_path lang_check lang_set root output_dir
            ai ign dry probe mux_ok muxed).2.1)) ∧
    (∀ (w : World) (stats : ProcessingStats) (mkv_path : FsPath)
        (language_priority : List String) (probe : MkvProbe) (env : ExtractEnv)
        (dry : Bool),
      (process_single_mkv_export w stats mkv_path language_priority probe env
          dry).2.total = stats.total + 1 ∧
      exactly_one_outcome stats
        (process_single_mkv_export w stats mkv_path language_priority probe env
          dry).2) := by
  constructor
  · intro w stats mkv_path lang_check lang_set root output_dir ai ign dry probe
      mux_ok muxed
    unfold process_single_mkv
    cases hl : has_language_in_set lang_set (probe_subtitle_languages probe)
    · simp only [hl, Bool.false_eq_true, if_false]
      cases hf : find_srt_file (siblings w mkv_path) (mkv_path.getLastD "") lang_check with
      | none =>
          simp [exactly_one_outcome, no_outcome_change]
      | some srt =>
          cases dry
          · simp only [Bool.false_eq_true, if_false]
            rcases hm : mux_with_subtitle
                (compute_output_path w mkv_path root output_dir).2 mkv_path
                (mkv_path.dropLast ++ [srt]) lang_set
                (compute_output_path w mkv_path root output_dir).1
                ai ign mux_ok muxed with ⟨w₁, oe⟩
            cases oe
            · simp [hm, exactly_one_outcome, no_outcome_change]
            · simp [hm, exactly_one_outcome, no_outcome_change]
          · simp [exactly_one_outcome, no_outcome_change]
    · simp [hl, exactly_one_outcome, no_outcome_change]
  · intro w stats mkv_path language_priority probe env dry
    have h := export_lang_loop_accounting w
      { stats with total := stats.total + 1 } mkv_path probe env dry
      language_priority
    exact ⟨h.1, h.2⟩

/-- Witness for the amended C4 at concrete inputs: a dry-run merge job
(completes, one outcome counter moves) and the failing-mux job (raises, no
outcome counter moves). -/
theorem c4_stats_accounting_witness :
    exactly_one_outcome ⟨0, 0, 0, 0⟩
      (process_single_mkv
        { fs := [(["root", "b.mkv"], 1), (["root", "b.en.srt"], 2)],
          dirs := [["root"]], effects := [], logs := [] }
        ⟨0, 0, 0, 0⟩ ["root", "b.mkv"] "en" "eng" ["root"] none
        false false true ⟨some []⟩ true 0).2.1 ∧
    no_outcome_change ⟨0, 0, 0, 0⟩
      (process_single_mkv
        { fs := [(["root", "b.mkv"], 1), (["root", "b.en.srt"], 2)],
          dirs := [["root"]], effects := [], logs := [] }
        ⟨0, 0, 0, 0⟩ ["root", "b.mkv"] "en" "eng" ["root"] none
        false false false ⟨some []⟩ false 0).2.1 := by
  constructor
  · exact (c4_stats_accounting.1
      { fs := [(["root", "b.mkv"], 1), (["root", "b.en.srt"], 2)],
        dirs := [["root"]], effects := [], logs := [] }
      ⟨0, 0, 0, 0⟩ ["root", "b.mkv"] "en" "eng" ["root"] none
      false false true ⟨some []⟩ true 0).2.1 (by decide)
  · exact (c4_stats_accounting.1
      { fs := [(["root", "b.mkv"], 1), (["root", "b.en.srt"], 2)],
        dirs := [["root"]], effects := [], logs := [] }
      ⟨0, 0, 0, 0⟩ ["root", "b.mkv"] "en" "eng" ["root"] none
      false false false ⟨some []⟩ false 0).2.2 (by decide)

/-- `mkdir` calls record directory creations and never write a log line. -/
theorem mkdir_parents_logs (w : World) (dir : FsPath) :
    (mkdir_parents w dir).logs = w.logs := by
  unfold mkdir_parents
  generalize List.range dir.length = l
  induction l generalizing w with
  | nil => rfl
  | cons i rest ih =>
      rw [List.foldl_cons]
      rw [ih]
      by_cases h : dir.take (i + 1) ∈ w.dirs <;> simp [h]

/-- Counterexample to Claim C5 as stated: when extraction fails, the export
job is counted as `processed` (there is no error counter), not as an error
outcome. -/
theorem c5_counterexample :
    ((process_single_mkv_export
        { fs := [(["root", "a.mkv"], 1)], dirs := [["root"]],
          effects := [], logs := [] }
        ⟨0, 0, 0, 0⟩ ["root", "a.mkv"] ["en"]
        ⟨some [⟨2, "subtitles", "en", "S_TEXT/UTF8"⟩]⟩
        ⟨false, true, 0⟩ false).2.processed = 1) ∧
    (process_single_mkv_export
        { fs := [(["root", "a.mkv"], 1)], dirs := [["root"]],
          effects := [], logs := [] }
        ⟨0, 0, 0, 0⟩ ["root", "a.mkv"] ["en"]
        ⟨some [⟨2, "subtitles", "en", "S_TEXT/UTF8"⟩]⟩
        ⟨false, true, 0⟩ false).1.logs = ["extraction failed"] := by
  constructor <;> decide

/-- Claim C5 amended: if extraction fails, or the subsequent copy/move save
fails, the failure is reported as an error log line and nothing is raised
past the job boundary, but the job is nonetheless counted as `processed`
(the stats have no error counter); on an extraction failure the filesystem
is additionally unchanged. -/
theorem c5_extract_failure_logged :
    (∀ (w : World) (stats : ProcessingStats) (mkv_path : FsPath) (lang : String)
        (rest : List String) (probe : MkvProbe) (env : ExtractEnv) (track : MKVTrack),
      find_srt_file (siblings w mkv_path) (mkv_path.getLastD "") lang = none →
      find_subtitle_track_in_mkv probe lang = some track →
      env.extract_ok = false →
      (process_single_mkv_export w stats mkv_path (lang :: rest) probe env
          false).2.total = stats.total + 1 ∧
      (process_single_mkv_export w stats mkv_path (lang :: rest) probe env
          false).2.processed = stats.processed + 1 ∧
      (process_single_mkv_export w stats mkv_path (lang :: rest) probe env
          false).1.logs = w.logs ++ ["extraction failed"] ∧
      (process_single_mkv_export w stats mkv_path (lang :: rest) probe env
          false).1.fs = w.fs) ∧
    (∀ (w : World) (stats : ProcessingStats) (mkv_path : FsPath) (lang : String)
        (rest : List String) (probe : MkvProbe) (env : ExtractEnv) (track : MKVTrack),
      find_srt_file (siblings w mkv_path) (mkv_path.getLastD "") lang = none →
      find_subtitle_track_in_mkv probe lang = some track →
      env.extract_ok = true →
      env.copy_ok = false →
      (process_single_mkv_export w stats mkv_path (lang :: rest) probe env
          false).2.total = stats.total + 1 ∧
      (process_single_mkv_export w stats mkv_path (lang :: rest) probe env
          false).2.processed = stats.processed + 1 ∧
      (process_single_mkv_export w stats mkv_path (lang :: rest) probe env
          false).1.logs = w.logs ++ ["failed to save extracted subtitle"]) := by
  constructor
  · intro w stats mkv_path lang rest probe env track hfind htrack hext
    unfold process_single_mkv_export export_lang_loop
    rw [hfind, htrack]
    simp only [Bool.false_eq_true, if_false]
    unfold extract_subtitle_from_mkv extract_subtitle_body
    rw [hext]
    simp
  · intro w stats mkv_path lang rest probe env track hfind htrack hext hcopy
    unfold process_single_mkv_export export_lang_loop
    rw [hfind, htrack]
    simp only [Bool.false_eq_true, if_false]
    unfold extract_subtitle_from_mkv extract_subtitle_body
    rw [hext, hcopy]
    simp only [if_true, Bool.false_eq_true, if_false]
    refine ⟨by first | rfl | trivial, by first | rfl | trivial, ?_⟩
    split <;> simp [mkdir_parents_logs]

/-- Witness for the amended C5 at concrete inputs: a failing extraction and
a failing copy/move save, each reported and each counted processed. -/
theorem c5_extract_failure_logged_witness :
    ((process_single_mkv_export
        { fs := [(["root", "c.mkv"], 1)], dirs := [["root"]],
          effects := [], logs := [] }
        ⟨0, 0, 0, 0⟩ ["root", "c.mkv"] ["en"]
        ⟨some [⟨2, "subtitles", "en", "S_TEXT/UTF8"⟩]⟩
        ⟨false, true, 0⟩ false).2.processed = 1) ∧
    ((process_single_mkv_export
        { fs := [(["root", "c.mkv"], 1)], dirs := [["root"]],
          effects := [], logs := [] }
        ⟨0, 0, 0, 0⟩ ["root", "c.mkv"] ["en"]
        ⟨some [⟨2, "subtitles", "en", "S_TEXT/UTF8"⟩]⟩
        ⟨true, false, 0⟩ false).2.processed = 1) ∧
    (process_single_mkv_export
        { fs := [(["root", "c.mkv"], 1)], dirs := [["root"]],
          effects := [], logs := [] }
        ⟨0, 0, 0, 0⟩ ["root", "c.mkv"] ["en"]
        ⟨some [⟨2, "subtitles", "en", "S_TEXT/UTF8"⟩]⟩
        ⟨true, false, 0⟩ false).1.logs = ["failed to save extracted subtitle"] := by
  refine ⟨?_, ?_, ?_⟩
  · exact (c5_extract_failure_logged.1
      { fs := [(["root", "c.mkv"], 1)], dirs := [["root"]],
        effects := [], logs := [] }
      ⟨0, 0, 0, 0⟩ ["root", "c.mkv"] "en" []
      ⟨some [⟨2, "subtitles", "en", "S_TEXT/UTF8"⟩]⟩
      ⟨false, true, 0⟩ ⟨2, "subtitles", "en", "S_TEXT/UTF8"⟩
      (by decide) (by decide) rfl).2.1
  · exact (c5_extract_failure_logged.2
      { fs := [(["root", "c.mkv"], 1)], dirs := [["root"]],
        effects := [], logs := [] }
      ⟨0, 0, 0, 0⟩ ["root", "c.mkv"] "en" []
      ⟨some [⟨2, "subtitles", "en", "S_TEXT/UTF8"⟩]⟩
      ⟨true, false, 0⟩ ⟨2, "subtitles", "en", "S_TEXT/UTF8"⟩
      (by decide) (by decide) rfl rfl).2.1
  · exact (c5_extract_failure_logged.2
      { fs := [(["root", "c.mkv"], 1)], dirs := [["root"]],
        effects := [], logs := [] }
      ⟨0, 0, 0, 0⟩ ["root", "c.mkv"] "en" []
      ⟨some [⟨2, "subtitles", "en", "S_TEXT/UTF8"⟩]⟩
      ⟨true, false, 0⟩ ⟨2, "subtitles", "en", "S_TEXT/UTF8"⟩
      (by decide) (by decide) rfl rfl).2.2

/-! ## cli.py : the batch loops of `run` and `export`

The sequential loop calls the job function directly, with no try/except
around it; the worker-pool loop collects futures with `as_completed` and
catches each job's exception at the pool boundary, logging it.  The pool is
modelled at job-level atomicity (each job's own effects serialized); the
shared-counter interleaving inside one increment is modelled separately
below. -/

/-- The per-file inputs of one merge job, with its external-call oracles. -/
structure MergeJob where
  mkv_path : FsPath
  probe : MkvProbe
  mux_ok : Bool
  muxed : Content
deriving DecidableEq, Repr

/-- The flags of one `run` invocation, shared by all of its jobs. -/
structure RunConfig where
  lang_check : String
  lang_set : String
  root : FsPath
  output_dir : Option FsPath
  ai_translated : Bool
  ignore_mux_errors : Bool
  dry_run : Bool
deriving DecidableEq, Repr

/-- The `workers == 1` loop of `run`: each job runs bare; an exception
propagates out of the loop, aborting the remaining jobs. -/
def run_seq (cfg : RunConfig) :
    List MergeJob → World × ProcessingStats → World × ProcessingStats × Option JobErr
  | [], (w, stats) => (w, stats, none)
  | j :: rest, (w, stats) =>
      match process_single_mkv w stats j.mkv_path cfg.lang_check cfg.lang_set
          cfg.root cfg.output_dir cfg.ai_translated cfg.ignore_mux_errors
          cfg.dry_run j.probe j.mux_ok j.muxed with
      | (w₁, stats₁, none) => run_seq cfg rest (w₁, stats₁)
      | (w₁, stats₁, some e) => (w₁, stats₁, some e)

/-- The worker-pool loop of `run`: every submitted job executes; an
exception raised by a job is caught at the `as_completed` boundary and
converted into an error log line, never cancelling sibling jobs. -/
def run_pool (cfg : RunConfig) :
    List MergeJob → World × ProcessingStats → World × ProcessingStats
  | [], (w, stats) => (w, stats)
  | j :: rest, (w, stats) =>
      match process_single_mkv w stats j.mkv_path cfg.lang_check cfg.lang_set
          cfg.root cfg.output_dir cfg.ai_translated cfg.ignore_mux_errors
          cfg.dry_run j.probe j.mux_ok j.muxed with
      | (w₁, stats₁, none) => run_pool cfg rest (w₁, stats₁)
      | (w₁, stats₁, some _) =>
          run_pool cfg rest
            ({ w₁ with logs := w₁.logs ++ ["error processing " ++ j.mkv_path.getLastD ""] },
              stats₁)

/-- The per-file inputs of one export job. -/
structure ExportJob where
  mkv_path : FsPath
  probe : MkvProbe
  env : ExtractEnv
deriving DecidableEq, Repr

/-- The `workers == 1` loop of `export`: each job runs bare (export jobs
catch all of their failures internally). -/
def export_run_seq (language_priority : List String) (dry : Bool) :
    List ExportJob → World × ProcessingStats → World × ProcessingStats
  | [], (w, stats) => (w, stats)
  | j :: rest, (w, stats) =>
      export_run_seq language_priority dry rest
        (process_single_mkv_export w stats j.mkv_path language_priority j.probe
          j.env dry)

/-- Every path of `process_single_mkv` increments `total` exactly once. -/
theorem process_single_mkv_total_increment (w : World) (stats : ProcessingStats)
    (mkv_path : FsPath) (lang_check lang_set : String) (root : FsPath)
    (output_dir : Option FsPath) (ai ign dry : Bool) (probe : MkvProbe)
    (mux_ok : Bool) (muxed : Content) :
    (process_single_mkv w stats mkv_path lang_check lang_set root output_dir
        ai ign dry probe mux_ok muxed).2.1.total = stats.total + 1 := by
  unfold process_single_mkv
  cases hl : has_language_in_set lang_set (probe_subtitle_languages probe)
  · simp only [hl, Bool.false_eq_true, if_false]
    cases hf : find_srt_file (siblings w mkv_path) (mkv_path.getLastD "") lang_check with
    | none => rfl
    | some srt =>
        cases dry
        · simp only [Bool.false_eq_true, if_false]
          rcases hm : mux_with_subtitle
              (compute_output_path w mkv_path root output_dir).2 mkv_path
              (mkv_path.dropLast ++ [srt]) lang_set
              (compute_output_path w mkv_path root output_dir).1
              ai ign mux_ok muxed with ⟨w₁, oe⟩
          cases oe
          · simp [hm]
          · simp [hm]
        · simp
  · simp [hl]

/-- Counterexample to Claim C1 as stated: in sequential mode a mux failure
propagates out of the loop and aborts the batch — with two enumerated
files, the first job's mux failure leaves the second job unrun (`total`
stays 1) and the error escapes the batch loop. -/
theorem c1_counterexample :
    ((run_seq ⟨"en", "eng", ["root"], none, false, false, false⟩
        [⟨["root", "a.mkv"], ⟨some []⟩, false, 0⟩,
         ⟨["root", "b.mkv"], ⟨some []⟩, true, 0⟩]
        ({ fs := [(["root", "a.mkv"], 1), (["root", "a.en.srt"], 2),
                  (["root", "b.mkv"], 3), (["root", "b.en.srt"], 4)],
           dirs := [["root"]], effects := [], logs := [] },
          ⟨0, 0, 0, 0⟩)).2.1.total = 1) ∧
    (run_seq ⟨"en", "eng", ["root"], none, false, false, false⟩
        [⟨["root", "a.mkv"], ⟨some []⟩, false, 0⟩,
         ⟨["root", "b.mkv"], ⟨some []⟩, true, 0⟩]
        ({ fs := [(["root", "a.mkv"], 1), (["root", "a.en.srt"], 2),
                  (["root", "b.mkv"], 3), (["root", "b.en.srt"], 4)],
           dirs := [["root"]], effects := [], logs := [] },
          ⟨0, 0, 0, 0⟩)).2.2 = some .muxFailed := by
  constructor <;> decide

/-- Claim C1 amended: in pool mode a mux or extract failure affects only its
job — every submitted job executes (`total` grows by the number of jobs)
and a failing job is converted into an error log line at the pool boundary;
extract failures are caught inside the job in both modes, so the sequential
export loop also always runs every job; but in sequential merge mode a mux
failure with `ignore_mux_errors` unset propagates and aborts the remaining
jobs (the batch stops at the failing job). -/
theorem c1_failure_containment :
    (∀ (cfg : RunConfig) (jobs : List MergeJob) (w : World) (stats : ProcessingStats),
      (run_pool cfg jobs (w, stats)).2.total = stats.total + jobs.length) ∧
    (∀ (language_priority : List String) (dry : Bool) (jobs : List ExportJob)
        (w : World) (stats : ProcessingStats),
      (export_run_seq language_priority dry jobs (w, stats)).2.total
        = stats.total + jobs.length) ∧
    (∀ (cfg : RunConfig) (j : MergeJob) (rest : List MergeJob) (w : World)
        (stats : ProcessingStats) (w₁ : World) (stats₁ : ProcessingStats) (e : JobErr),
      process_single_mkv w stats j.mkv_path cfg.lang_check cfg.lang_set cfg.root
          cfg.output_dir cfg.ai_translated cfg.ignore_mux_errors cfg.dry_run
          j.probe j.mux_ok j.muxed = (w₁, stats₁, some e) →
      run_seq cfg (j :: rest) (w, stats) = (w₁, stats₁, some e)) := by
  refine ⟨?_, ?_, ?_⟩
  · intro cfg jobs
    induction jobs with
    | nil => intro w stats; simp [run_pool]
    | cons j rest ih =>
        intro w stats
        unfold run_pool
        rcases hp : process_single_mkv w stats j.mkv_path cfg.lang_check
            cfg.lang_set cfg.root cfg.output_dir cfg.ai_translated
            cfg.ignore_mux_errors cfg.dry_run j.probe j.mux_ok j.muxed
          with ⟨w₁, stats₁, oe⟩
        have htot : stats₁.total = stats.total + 1 := by
          have h := process_single_mkv_total_increment w stats j.mkv_path
            cfg.lang_check cfg.lang_set cfg.root cfg.output_dir cfg.ai_translated
            cfg.ignore_mux_errors cfg.dry_run j.probe j.mux_ok j.muxed
          rw [hp] at h
          exact h
        cases oe
        · rw [ih w₁ stats₁, htot, List.length_cons]
          omega
        · rw [ih _ stats₁, htot, List.length_cons]
          omega
  · intro language_priority dry jobs
    induction jobs with
    | nil => intro w stats; simp [export_run_seq]
    | cons j rest ih =>
        intro w stats
        unfold export_run_seq
        rcases hp : process_single_mkv_export w stats j.mkv_path language_priority
            j.probe j.env dry with ⟨w₁, stats₁⟩
        have htot : stats₁.total = stats.total + 1 := by
          have h := (export_lang_loop_accounting w
            { stats with total := stats.total + 1 } j.mkv_path j.probe j.env dry
            language_priority).1
          rw [show export_lang_loop w { stats with total := stats.total + 1 }
              j.mkv_path j.probe j.env dry language_priority
              = process_single_mkv_export w stats j.mkv_path language_priority
                  j.probe j.env dry from rfl, hp] at h
          exact h
        rw [ih w₁ stats₁, htot, List.length_cons]
        omega
  · intro cfg j rest w stats w₁ stats₁ e hp
    unfold run_seq
    rw [hp]

/-- Witness for the amended C1: applying the sequential-abort part at the
concrete failing job shows the batch loop returning that job's error. -/
theorem c1_failure_containment_witness :
    (run_seq ⟨"en", "eng", ["root"], none, false, false, false⟩
        [⟨["root", "d.mkv"], ⟨some []⟩, false, 0⟩]
        ({ fs := [(["root", "d.mkv"], 1), (["root", "d.en.srt"], 2)],
           dirs := [["root"]], effects := [], logs := [] },
          ⟨0, 0, 0, 0⟩)).2.2 = some .muxFailed := by
  have h := c1_failure_containment.2.2
    ⟨"en", "eng", ["root"], none, false, false, false⟩
    ⟨["root", "d.mkv"], ⟨some []⟩, false, 0⟩ []
    { fs := [(["root", "d.mkv"], 1), (["root", "d.en.srt"], 2)],
      dirs := [["root"]], effects := [], logs := [] }
    ⟨0, 0, 0, 0⟩
    (process_single_mkv
      { fs := [(["root", "d.mkv"], 1), (["root", "d.en.srt"], 2)],
        dirs := [["root"]], effects := [], logs := [] }
      ⟨0, 0, 0, 0⟩ ["root", "d.mkv"] "en" "eng" ["root"] none
      false false false ⟨some []⟩ false 0).1
    (process_single_mkv
      { fs := [(["root", "d.mkv"], 1), (["root", "d.en.srt"], 2)],
        dirs := [["root"]], effects := [], logs := [] }
      ⟨0, 0, 0, 0⟩ ["root", "d.mkv"] "en" "eng" ["root"] none
      false false false ⟨some []⟩ false 0).2.1
    .muxFailed (by decide)
  rw [h]

/-! ## The shared-counter increments under the worker pool

In pool mode every worker thread runs `stats.total += 1` (and the outcome
counter increments) on the one shared `ProcessingStats` object with no lock.
In CPython that statement is a read of the attribute, an add, and a write
back, and the interpreter may switch threads between the read and the
write.  One increment is therefore modelled as a `read` micro-operation
(load the counter into the worker's register) followed by a `write`
micro-operation (store register + 1); a schedule is an interleaving of the
micro-operations of the workers. -/

/-- One micro-operation of `stats.total += 1`, tagged by worker. -/
inductive IncOp
  | read (tid : Nat)
  | write (tid : Nat)
deriving DecidableEq, Repr

/-- Execute a schedule of increment micro-operations over the shared
counter, with one register per worker. -/
def run_increments : List IncOp → Nat → (Nat → Nat) → Nat
  | [], counter, _ => counter
  | .read t :: rest, counter, regs =>
      run_increments rest counter (fun u => if u = t then counter else regs u)
  | .write t :: rest, counter, regs =>
      run_increments rest (regs t + 1) regs

/-- The final value of the shared counter after a schedule, from zero. -/
def exec_schedule (sched : List IncOp) : Nat := run_increments sched 0 (fun _ => 0)

/-- The fully serialized schedule of `n` increments, as sequential mode
(`workers == 1`) produces it. -/
def serial_schedule : Nat → List IncOp
  | 0 => []
  | n + 1 => .read n :: .write n :: serial_schedule n

theorem run_increments_serial (n : Nat) :
    ∀ (counter : Nat) (regs : Nat → Nat),
      run_increments (serial_schedule n) counter regs = counter + n := by
  induction n with
  | zero => intro counter regs; rfl
  | succ m ih =>
      intro counter regs
      simp only [serial_schedule, run_increments, eq_self_iff_true, if_true]
      rw [ih]
      omega

/-- Claim C9 (the code gap): the serialized schedule of two unsynchronized
increments of the shared counter yields 2 — any 1-worker run does — while
the pool interleaving in which both workers read before either writes
yields 1: the naive `stats.total += 1` of `process_single_mkv` on the
shared `ProcessingStats` can under-count under the worker pool, so a
`workers=4` run is not guaranteed the counters of a `workers=1` run. -/
theorem c9_unsynchronized_increment_race :
    (∀ n : Nat, exec_schedule (serial_schedule n) = n) ∧
      exec_schedule [.read 0, .read 1, .write 0, .write 1] = 1 ∧
      exec_schedule (serial_schedule 2) = 2 := by
  refine ⟨fun n => ?_, by decide, by decide⟩
  show run_increments (serial_schedule n) 0 _ = n
  rw [run_increments_serial]
  omega

end MkvSubmerge
